import Mathlib

set_option maxRecDepth 10000

/-!
Shallow embedding of `markdown_flow/parsers.py` (MarkdownFlow parser core).

Strings are modelled through their character lists.  Regex-based scans of the
source are embedded as dedicated leftmost, non-overlapping scanners that follow
the exact backtracking behaviour of the corresponding Python patterns.
Whitespace is the ASCII whitespace class (all inputs of interest are ASCII).
Brace characters inside string literals are written with hex escapes.
-/

/-- ASCII whitespace as used by Python's `str.strip()` and the regex class
`\s` (space, tab, newline, carriage return, vertical tab, form feed). -/
def isPySpace (c : Char) : Bool :=
  c == ' ' || c == '\t' || c == '\n' || c == '\r' || c == '\x0b' || c == '\x0c'

/-- Remove trailing whitespace characters (right half of `str.strip()`). -/
def trimRight : List Char → List Char
  | [] => []
  | c :: rest =>
    match trimRight rest with
    | [] => if isPySpace c then [] else [c]
    | r => c :: r

/-- Python `str.strip()` on a character list. -/
def pyStrip (l : List Char) : List Char :=
  trimRight (l.dropWhile isPySpace)

/-- Python `str.strip()` on a `String`. -/
def pyStripS (s : String) : String :=
  ⟨pyStrip s.data⟩

/-- Python `str.split(sep)` for a one-character separator. -/
def splitChar (sep : Char) : List Char → List (List Char)
  | [] => [[]]
  | c :: rest =>
    if c = sep then [] :: splitChar sep rest
    else
      match splitChar sep rest with
      | [] => [[c]]
      | h :: t => (c :: h) :: t

/-- Split at the first occurrence of a single character, if present. -/
def splitFirstChar (sep : Char) : List Char → Option (List Char × List Char)
  | [] => none
  | c :: rest =>
    if c = sep then some ([], rest)
    else (splitFirstChar sep rest).map (fun p => (c :: p.1, p.2))

/-- Python `s.split(needle, 1)` when `needle` occurs: the text before the
first occurrence and the text after it.  `none` when `needle` is absent. -/
def splitFirstSub (needle : List Char) : List Char → Option (List Char × List Char)
  | [] => if needle.isEmpty then some ([], []) else none
  | c :: rest =>
    if needle.isPrefixOf (c :: rest) then some ([], (c :: rest).drop needle.length)
    else (splitFirstSub needle rest).map (fun p => (c :: p.1, p.2))

/-- Python `needle in hay` for substrings. -/
def containsSub (needle hay : List Char) : Bool :=
  (splitFirstSub needle hay).isSome

/-- Index of the leftmost occurrence of `needle` in `hay` (`re.search` of an
escaped literal). -/
def firstOccurIdx (needle : List Char) : List Char → Option Nat
  | [] => if needle.isEmpty then some 0 else none
  | c :: rest =>
    if needle.isPrefixOf (c :: rest) then some 0
    else (firstOccurIdx needle rest).map (· + 1)

/-- Index of the rightmost occurrence of a character in a list. -/
def lastIdxOf (x : Char) : List Char → Option Nat
  | [] => none
  | c :: rest =>
    match lastIdxOf x rest with
    | some i => some (i + 1)
    | none => if c = x then some 0 else none

/-- Python string `<` (code-point lexicographic). -/
def strLtL : List Char → List Char → Bool
  | [], [] => false
  | [], _ :: _ => true
  | _ :: _, [] => false
  | a :: xs, b :: ys =>
    if a.val < b.val then true
    else if b.val < a.val then false
    else strLtL xs ys

/-- Insert into an ascending list (helper for `sorted`). -/
def insertSorted (s : String) : List String → List String
  | [] => [s]
  | t :: ts => if strLtL t.data s.data then t :: insertSorted s ts else s :: t :: ts

/-- Python `sorted` on strings. -/
def sortStrings : List String → List String
  | [] => []
  | s :: ss => insertSorted s (sortStrings ss)

/-- Keep the first occurrence of every string (set semantics). -/
def dedupStrings : List String → List String
  | [] => []
  | s :: ss => s :: (dedupStrings ss).filter (fun t => t ≠ s)

/-- Python `sorted(list(set(l)))`. -/
def sortedDedup (l : List String) : List String :=
  sortStrings (dedupStrings l)

/-- Types of escape sequences (`EscapeType` in the source; the source's
`PARTIAL` member is named `percent` here). -/
inductive EscapeType where
  | none
  | full
  | percent
deriving DecidableEq

/-- Information about escape sequences in one text span (`EscapeInfo`). -/
structure EscapeInfo where
  escape_type : EscapeType
  original_text : String
  processed_text : String
  variable_positions : List (Nat × Nat)
deriving DecidableEq

/-- Modelled from the spec: block kinds of `enums.BlockType` (module not in
the provided sources); the spec lists `Content`, `PreservedContent`,
`Interaction`. -/
inductive BlockType where
  | content
  | interaction
  | preserved_content
deriving DecidableEq

/-- Modelled from the spec: `models.Block` (module not in the provided
sources); the spec gives fields `content`, `block_type`, `index`. -/
structure Block where
  content : String
  block_type : BlockType
  index : Nat
deriving DecidableEq

/-- A parsed interaction button (`{'display': ..., 'value': ...}`). -/
structure Button where
  display : String
  value : String
deriving DecidableEq

/-- Result dictionary shapes of `_parse_interaction_content`, as a closed
sum (`var` stands for the dictionary key named `variable`, a Lean
keyword). -/
inductive InteractionResult where
  | error (message : String)
  | buttonsWithText (var : String) (buttons : List Button) (question : String)
  | textOnly (var : String) (question : String)
  | buttonsOnly (var : String) (buttons : List Button)
  | nonAssignmentButton (buttons : List Button)
deriving DecidableEq

/-- A single escape-pattern matcher: given the first character and the rest
of the text, return the replacement text and the number of further
characters (beyond the first) consumed by the match. -/
def EscMatcher : Type :=
  Char → List Char → Option (List Char × Nat)

/-- Match `\{\{([^}]+)\}\}` at the head of a list: returns the group (the
nonempty brace-free name) and the total match length. -/
def bracesMatch : List Char → Option (List Char × Nat)
  | '\x7b' :: '\x7b' :: r =>
    let run := r.takeWhile (fun ch => ch ≠ '\x7d')
    if run.isEmpty then none
    else
      match r.drop run.length with
      | '\x7d' :: '\x7d' :: _ => some (run, run.length + 4)
      | _ => none
  | _ => none

/-- Document escape `\\---` → `---`. -/
def dashMatcher : EscMatcher := fun c rest =>
  if c = '\\' then
    match rest with
    | '-' :: '-' :: '-' :: _ => some (['-', '-', '-'], 3)
    | _ => none
  else none

/-- Document escape `\\===` → `===`. -/
def eqMatcher : EscMatcher := fun c rest =>
  if c = '\\' then
    match rest with
    | '=' :: '=' :: '=' :: _ => some (['=', '=', '='], 3)
    | _ => none
  else none

/-- Document escape `\\\?\[` → `?[`. -/
def qbracketMatcher : EscMatcher := fun c rest =>
  if c = '\\' then
    match rest with
    | '?' :: '[' :: _ => some (['?', '['], 2)
    | _ => none
  else none

/-- Inline escape `\\\.\.\.` → `...`. -/
def ellipsisMatcher : EscMatcher := fun c rest =>
  if c = '\\' then
    match rest with
    | '.' :: '.' :: '.' :: _ => some (['.', '.', '.'], 3)
    | _ => none
  else none

/-- Inline escape `\\\|` → `|`. -/
def pipeMatcher : EscMatcher := fun c rest =>
  if c = '\\' then
    match rest with
    | '|' :: _ => some (['|'], 1)
    | _ => none
  else none

/-- Inline escape `\\//` → `//`. -/
def slashMatcher : EscMatcher := fun c rest =>
  if c = '\\' then
    match rest with
    | '/' :: '/' :: _ => some (['/', '/'], 2)
    | _ => none
  else none

/-- Inline full escape `\\{{([^}]+)}}` → `{{\1}}` (drop the backslash). -/
def braceEscMatcher : EscMatcher := fun c rest =>
  if c = '\\' then
    (bracesMatch rest).map (fun p => ('\x7b' :: '\x7b' :: (p.1 ++ ['\x7d', '\x7d']), p.2))
  else none

/-- The percent escape pattern `\\%{{([^}]+)}}` (the source's partial
escape) matched at the head: returns the group and the total match
length. -/
def percentMatchAt (c : Char) (rest : List Char) : Option (List Char × Nat) :=
  if c = '\\' then
    match rest with
    | '%' :: r => (bracesMatch r).map (fun p => (p.1, p.2 + 2))
    | _ => none
  else none

/-- The percent escape as a replacement matcher, `\\%{{\1}}` → `%{{\1}}`
(used for `re.sub` on a matched slice). -/
def percentMatcher : EscMatcher := fun c rest =>
  if c = '\\' then
    match rest with
    | '%' :: r =>
      (bracesMatch r).map
        (fun p => ('%' :: '\x7b' :: '\x7b' :: (p.1 ++ ['\x7d', '\x7d']), p.2 + 1))
    | _ => none
  else none

/-- Core of `re.sub` for one escape matcher: leftmost, non-overlapping
replacement over the whole text, plus whether any match was found
(`re.search`).  The `Nat` argument counts characters of a pending match
still to be skipped. -/
def scanReplaceAux (m : EscMatcher) : Nat → List Char → List Char × Bool
  | _, [] => ([], false)
  | 0, c :: rest =>
    match m c rest with
    | some (repl, k) =>
      let r := scanReplaceAux m k rest
      (repl ++ r.1, true)
    | none =>
      let r := scanReplaceAux m 0 rest
      (c :: r.1, r.2)
  | skip + 1, _ :: rest => scanReplaceAux m skip rest

/-- `re.sub`/`re.search` for one escape pattern. -/
def scanReplace (m : EscMatcher) (l : List Char) : List Char × Bool :=
  scanReplaceAux m 0 l

/-- `re.finditer` for the percent escape pattern: list of
`(start, end, group)` in source order.  The `Nat` in second position counts
characters of a pending match still to be skipped. -/
def findPercentMatches : Nat → Nat → List Char → List (Nat × Nat × List Char)
  | _, _, [] => []
  | i, 0, c :: rest =>
    match percentMatchAt c rest with
    | some (name, n) => (i, i + n, name) :: findPercentMatches (i + n) (n - 1) rest
    | none => findPercentMatches (i + 1) 0 rest
  | i, skip + 1, _ :: rest => findPercentMatches i skip rest

/-- The reversed-order percent-escape replacement loop of
`_process_escapes`: rewrite the evolving text at the frozen match offsets
and record the variable span inside each replacement at its absolute
offset. -/
def applyPercent (orig : List Char) (ms : List (Nat × Nat × List Char)) :
    List Char × List (Nat × Nat) :=
  ms.reverse.foldl
    (fun acc m =>
      let s := m.1
      let e := m.2.1
      let name := m.2.2
      let g0 := (orig.take e).drop s
      let repl := (scanReplace percentMatcher g0).1
      let poss :=
        match firstOccurIdx ('\x7b' :: '\x7b' :: (name ++ ['\x7d', '\x7d'])) repl with
        | some v => acc.2 ++ [(s + v, s + v + (name.length + 4))]
        | none => acc.2
      (acc.1.take s ++ repl ++ acc.1.drop e, poss))
    (orig, [])

/-- `_process_escapes`: percent (partial) escapes first, then the full
escape patterns in dictionary order.  Returns the processed text, the
escape type and the recorded variable positions. -/
def processEscapesCore (td : List Char) (percentOn : Bool) (fulls : List EscMatcher) :
    List Char × EscapeType × List (Nat × Nat) :=
  let ms := if percentOn then findPercentMatches 0 0 td else []
  let ap := applyPercent td ms
  let et1 := if ms.isEmpty then EscapeType.none else EscapeType.percent
  let res := fulls.foldl
    (fun p m =>
      let sr := scanReplace m p.1
      if sr.2 then (sr.1, if p.2 = EscapeType.none then EscapeType.full else p.2) else p)
    (ap.1, et1)
  (res.1, res.2, ap.2)

/-- `MarkdownFlowEscapeProcessor.process_document_escapes`. -/
def MarkdownFlowEscapeProcessor.process_document_escapes (text : String) : EscapeInfo :=
  let r := processEscapesCore text.data false [dashMatcher, eqMatcher, qbracketMatcher]
  ⟨r.2.1, text, ⟨r.1⟩, r.2.2⟩

/-- `MarkdownFlowEscapeProcessor.process_inline_escapes`. -/
def MarkdownFlowEscapeProcessor.process_inline_escapes (text : String) : EscapeInfo :=
  let r := processEscapesCore text.data true
    [ellipsisMatcher, pipeMatcher, slashMatcher, braceEscMatcher]
  ⟨r.2.1, text, ⟨r.1⟩, r.2.2⟩

example :
    MarkdownFlowEscapeProcessor.process_inline_escapes "\\%\x7b\x7bx\x7d\x7d" =
      ⟨EscapeType.percent, "\\%\x7b\x7bx\x7d\x7d", "%\x7b\x7bx\x7d\x7d", [(1, 6)]⟩ := by
  decide

example :
    MarkdownFlowEscapeProcessor.process_inline_escapes "\\\x7b\x7bx\x7d\x7d" =
      ⟨EscapeType.full, "\\\x7b\x7bx\x7d\x7d", "\x7b\x7bx\x7d\x7d", []⟩ := by
  decide

example :
    MarkdownFlowEscapeProcessor.process_document_escapes "a\n\\---\nb" =
      ⟨EscapeType.full, "a\n\\---\nb", "a\n---\nb", []⟩ := by
  decide

/-- `str.startswith` via list prefixes. -/
def startsWithS (s p : String) : Bool :=
  p.data.isPrefixOf s.data

/-- `str.endswith` via list suffixes. -/
def endsWithS (s p : String) : Bool :=
  p.data.isSuffixOf s.data

/-- Running bracket count of `_is_interaction_block`: `+1` on `[`, `-1` on
`]`, summed over the whole span. -/
def bracketBalance (s : String) : Int :=
  s.data.foldl (fun acc c => if c = '[' then acc + 1 else if c = ']' then acc - 1 else acc) 0

/-- `MarkdownFlowBlockParser._is_interaction_block`. -/
def MarkdownFlowBlockParser.is_interaction_block (content : String) : Bool :=
  let stripped := pyStripS content
  startsWithS stripped "?[" && endsWithS stripped "]" && bracketBalance stripped == 0

/-- The regex `^===(.+)===$` of the preserved-content checks, applied to one
line: returns the greedy group when the line matches.  `$` also accepts a
position just before one final newline, and `.` does not match newlines. -/
def inlinePreservedMatch (line : List Char) : Option (List Char) :=
  let l := if line.getLast? = some '\n' then line.dropLast else line
  if l.take 3 = ['=', '=', '='] ∧ l.drop (l.length - 3) = ['=', '=', '='] ∧ 7 ≤ l.length then
    let g := (l.take (l.length - 3)).drop 3
    if g.contains '\n' then none else some g
  else none

/-- `MarkdownFlowBlockParser._is_preserved_content_block`. -/
def MarkdownFlowBlockParser.is_preserved_content_block (content : String) : Bool :=
  let lines := splitChar '\n' content.data
  let inlineOk :=
    if lines.length = 1 then
      match inlinePreservedMatch (pyStrip (lines.headD [])) with
      | some g => !g.contains '='
      | none => false
    else false
  let multiOk :=
    decide (3 ≤ lines.length) && (pyStrip (lines.headD []) == ['=', '=', '=']) &&
      (pyStrip (lines.getLast?.getD []) == ['=', '=', '='])
  inlineOk || multiOk

/-- Classification order of `_parse_single_block`: interaction, then
preserved content, then plain content. -/
def classifyBlock (c : String) : BlockType :=
  if MarkdownFlowBlockParser.is_interaction_block c then BlockType.interaction
  else if MarkdownFlowBlockParser.is_preserved_content_block c then BlockType.preserved_content
  else BlockType.content

/-- `MarkdownFlowBlockParser._parse_single_block`. -/
def MarkdownFlowBlockParser.parse_single_block (content : String) (tentative_index : Nat) :
    Option Block :=
  let c := pyStripS content
  if c = "" then none
  else some ⟨c, classifyBlock c, tentative_index⟩

/-- Length of a match of the block-separator pattern `\n\s*---\s*\n` that
starts at the head of the list, following the greedy backtracking of the
Python pattern: the whitespace after `---` extends to the last newline of
the maximal whitespace run. -/
def sepMatchLen : List Char → Option Nat
  | '\n' :: rest =>
    let w := (rest.takeWhile isPySpace).length
    match rest.drop w with
    | '-' :: '-' :: '-' :: r2 =>
      let run := r2.takeWhile isPySpace
      match lastIdxOf '\n' run with
      | some t => some (1 + w + 3 + t + 1)
      | none => none
    | _ => none
  | _ => none

/-- `re.split` on the block-separator pattern (leftmost, non-overlapping
matches).  The `Nat` counts characters of a pending separator match still
to be skipped. -/
def splitSepAux : List Char → Nat → List Char → List (List Char)
  | acc, 0, [] => [acc.reverse]
  | acc, _ + 1, [] => [acc.reverse]
  | acc, 0, c :: rest =>
    match sepMatchLen (c :: rest) with
    | some n => acc.reverse :: splitSepAux [] (n - 1) rest
    | none => splitSepAux (c :: acc) 0 rest
  | acc, skip + 1, _ :: rest => splitSepAux acc skip rest

/-- `re.split(r'\n\s*---\s*\n', text)`. -/
def splitSep (l : List Char) : List (List Char) :=
  splitSepAux [] 0 l

/-- The block-collection loop of `parse_document`: enumerate the raw
segments, strip each, skip the empty ones, and parse the rest with their
tentative index. -/
def collectBlocks : Nat → List (List Char) → List Block
  | _, [] => []
  | i, seg :: rest =>
    let raw := pyStrip seg
    if raw.isEmpty then collectBlocks (i + 1) rest
    else
      match MarkdownFlowBlockParser.parse_single_block ⟨raw⟩ i with
      | some b => b :: collectBlocks (i + 1) rest
      | none => collectBlocks (i + 1) rest

/-- The index-fixup loop of `parse_document` (`block.index = i` over the
surviving blocks). -/
def reindexBlocks : Nat → List Block → List Block
  | _, [] => []
  | i, b :: bs => { b with index := i } :: reindexBlocks (i + 1) bs

/-- `MarkdownFlowBlockParser.parse_document`. -/
def MarkdownFlowBlockParser.parse_document (document : String) : List Block :=
  let ei := MarkdownFlowEscapeProcessor.process_document_escapes document
  reindexBlocks 0 (collectBlocks 0 (splitSep ei.processed_text.data))

example :
    MarkdownFlowBlockParser.parse_document "a\n\\---\nb" =
      [⟨"a", BlockType.content, 0⟩, ⟨"b", BlockType.content, 1⟩] := by
  decide

example :
    MarkdownFlowBlockParser.parse_document "Hello\n---\n?[%\x7b\x7bc\x7d\x7dYes|No]" =
      [⟨"Hello", BlockType.content, 0⟩,
       ⟨"?[%\x7b\x7bc\x7d\x7dYes|No]", BlockType.interaction, 1⟩] := by
  decide

example :
    MarkdownFlowBlockParser.parse_document "x\n---\n===\nkeep\n===" =
      [⟨"x", BlockType.content, 0⟩, ⟨"===\nkeep\n===", BlockType.preserved_content, 1⟩] := by
  decide

example :
    MarkdownFlowBlockParser.parse_document "a\n---\n   \n---\nb" =
      [⟨"a", BlockType.content, 0⟩, ⟨"---\nb", BlockType.content, 1⟩] := by
  decide

example :
    MarkdownFlowBlockParser.parse_document "\n---\na" = [⟨"a", BlockType.content, 0⟩] := by
  decide

/-- `re.findall(r'%\{\{([^}]+)\}\}', text)`: groups of the preserved-variable
pattern, leftmost and non-overlapping.  The `Nat` counts characters of a
pending match still to be skipped. -/
def findPercentVarNames : Nat → List Char → List (List Char)
  | _, [] => []
  | 0, c :: rest =>
    match (if c = '%' then bracesMatch rest else none) with
    | some (name, n) => name :: findPercentVarNames n rest
    | none => findPercentVarNames 0 rest
  | skip + 1, _ :: rest => findPercentVarNames skip rest

/-- `re.finditer(r'(?<!%)\{\{([^}]+)\}\}', text)`: matches of the
substitutable-variable pattern as `(start, end, group)`, with the
negative lookbehind tracked through the previous character.  The `Nat` in
third position counts characters of a pending match still to be
skipped. -/
def findVarMatches : Option Char → Nat → Nat → List Char → List (Nat × Nat × List Char)
  | _, _, _, [] => []
  | prev, i, 0, c :: rest =>
    match (if prev = some '%' then none else bracesMatch (c :: rest)) with
    | some (name, n) =>
      (i, i + n, name) :: findVarMatches (some '\x7d') (i + n) (n - 1) rest
    | none => findVarMatches (some c) (i + 1) 0 rest
  | prev, i, skip + 1, _ :: rest => findVarMatches prev i skip rest

/-- `MarkdownFlowInlineParser._extract_variables`. -/
def MarkdownFlowInlineParser.extract_variables (text : String)
    (escape_info : Option EscapeInfo) : List String :=
  let pvars := (findPercentVarNames 0 text.data).map (fun n => (⟨pyStrip n⟩ : String))
  let canCollect :=
    match escape_info with
    | Option.none => true
    | Option.some ei =>
      match ei.escape_type with
      | EscapeType.full => false
      | _ => true
  let bvars :=
    if canCollect then
      (findVarMatches Option.none 0 0 text.data).map (fun m => (⟨pyStrip m.2.2⟩ : String))
    else []
  sortedDedup (pvars ++ bvars)

/-- Result of `parse_content_block`. -/
structure ContentParseResult where
  processed_content : String
  vars : List String
  escape_info : EscapeInfo
deriving DecidableEq

/-- `MarkdownFlowInlineParser.parse_content_block`. -/
def MarkdownFlowInlineParser.parse_content_block (content : String) : ContentParseResult :=
  let ei := MarkdownFlowEscapeProcessor.process_inline_escapes content
  ⟨ei.processed_text, MarkdownFlowInlineParser.extract_variables ei.processed_text (some ei), ei⟩

/-- `MarkdownFlowInlineParser._extract_preserved_content`. -/
def MarkdownFlowInlineParser.extract_preserved_content (content : List Char) : List Char :=
  let lines := splitChar '\n' content
  match (if lines.length = 1 then inlinePreservedMatch (pyStrip (lines.headD [])) else none) with
  | some g => pyStrip g
  | none =>
    if 3 ≤ lines.length ∧ pyStrip (lines.headD []) = ['=', '=', '='] ∧
        pyStrip (lines.getLast?.getD []) = ['=', '=', '='] then
      List.intercalate ['\n'] ((lines.drop 1).dropLast)
    else content

/-- Result of `parse_preserved_content_block`. -/
structure PreservedParseResult where
  processed_content : String
  extracted_content : String
  vars : List String
  escape_info : EscapeInfo
deriving DecidableEq

/-- `MarkdownFlowInlineParser.parse_preserved_content_block`. -/
def MarkdownFlowInlineParser.parse_preserved_content_block (content : String) :
    PreservedParseResult :=
  let extracted := MarkdownFlowInlineParser.extract_preserved_content content.data
  let ei := MarkdownFlowEscapeProcessor.process_inline_escapes ⟨extracted⟩
  ⟨ei.processed_text, ⟨extracted⟩,
    MarkdownFlowInlineParser.extract_variables ei.processed_text (some ei), ei⟩

/-- The `$` anchor of `re.match(..., s)` applied after `(.*)`: the group
runs to the end of the string, or to a single final newline; `.` does not
match newlines. -/
def dollarTail (rest : List Char) : Option (List Char) :=
  if rest.contains '\n' then
    if rest.getLast? = some '\n' ∧ ¬ (rest.dropLast.contains '\n' = true) then some rest.dropLast
    else none
  else some rest

/-- `re.match(r'^%\{\{([^}]+)\}\}(.*)$', s)`: the variable-assignment
prefix; returns the two groups. -/
def varPrefixMatch (s : List Char) : Option (List Char × List Char) :=
  match s with
  | '%' :: r =>
    match bracesMatch r with
    | some (name, n) =>
      match dollarTail (r.drop n) with
      | some g2 => some (name, g2)
      | none => none
    | none => none
  | _ => none

/-- `re.match(r'^[^]]+\]\([^)]+\)$', s)`: markdown-link shape.  The matched
`]` is necessarily the first `]` and the matched `)` the first `)` after
`(`, which must close the string (or be followed by one final newline). -/
def isMarkdownLink (s : List Char) : Bool :=
  match splitFirstChar ']' s with
  | some (a, rest1) =>
    !a.isEmpty &&
      (match rest1 with
       | '(' :: rest2 =>
         match splitFirstChar ')' rest2 with
         | some (b, rest3) => !b.isEmpty && (rest3.isEmpty || rest3 == ['\n'])
         | none => false
       | _ => false)
  | none => false

/-- `MarkdownFlowInlineParser._parse_buttons`. -/
def MarkdownFlowInlineParser.parse_buttons (content : String) : List Button :=
  if content.isEmpty then []
  else
    (splitChar '|' content.data).filterMap (fun seg =>
      let t := pyStrip seg
      if t.isEmpty then none
      else
        match splitFirstSub ['/', '/'] t with
        | some (d, v) => some ⟨⟨pyStrip d⟩, ⟨pyStrip v⟩⟩
        | none => some ⟨⟨t⟩, ⟨t⟩⟩)

/-- `MarkdownFlowInlineParser._parse_interaction_content`. -/
def MarkdownFlowInlineParser.parse_interaction_content (content : String) : InteractionResult :=
  let s := pyStrip content.data
  if isMarkdownLink s then
    InteractionResult.error "Markdown link format not supported as interaction"
  else
    match varPrefixMatch s with
    | some (name, g2) =>
      let vn : String := ⟨pyStrip name⟩
      let remaining := pyStrip g2
      match splitFirstSub ['.', '.', '.'] remaining with
      | some (bp, q) =>
        let buttons_part := pyStrip bp
        let question : String := ⟨pyStrip q⟩
        if buttons_part.contains '|' && !buttons_part.isEmpty then
          InteractionResult.buttonsWithText vn
            (MarkdownFlowInlineParser.parse_buttons ⟨buttons_part⟩) question
        else InteractionResult.textOnly vn question
      | none =>
        if remaining.contains '|' || !remaining.isEmpty then
          InteractionResult.buttonsOnly vn
            (if !remaining.isEmpty then MarkdownFlowInlineParser.parse_buttons ⟨remaining⟩ else [])
        else InteractionResult.textOnly vn ""
    | none =>
      InteractionResult.nonAssignmentButton
        (if !content.isEmpty then MarkdownFlowInlineParser.parse_buttons content
         else [⟨"", ""⟩])

/-- Result of `parse_interaction_block`. -/
structure InteractionParseResult where
  result : InteractionResult
  escape_info : EscapeInfo
  original_content : String
deriving DecidableEq

/-- `MarkdownFlowInlineParser.parse_interaction_block`. -/
def MarkdownFlowInlineParser.parse_interaction_block (content : String) :
    InteractionParseResult :=
  let inner :=
    if startsWithS content "?[" && endsWithS content "]" then
      (⟨pyStrip ((content.data.drop 2).dropLast)⟩ : String)
    else content
  let ei := MarkdownFlowEscapeProcessor.process_inline_escapes inner
  ⟨MarkdownFlowInlineParser.parse_interaction_content ei.processed_text, ei, content⟩

/-- The effective variable lookup of `resolve_variables` (`safe_variables`
construction plus the missing-name default): absent, null and empty values
all resolve to the literal `UNKNOWN`. -/
def lookupVar : List (String × Option String) → String → Option (Option String)
  | [], _ => none
  | p :: ps, k => if p.1 = k then some p.2 else lookupVar ps k

/-- Replacement value for one variable name. -/
def safeValue (vars : List (String × Option String)) (name : String) : String :=
  match lookupVar vars name with
  | some (some v) => if v = "" then "UNKNOWN" else v
  | some none => "UNKNOWN"
  | none => "UNKNOWN"

/-- The per-match escape gate of `resolve_variables` (`should_replace`):
full escape blocks every substitution; a percent (partial) escape allows a
match only when its start offset lies in a recorded variable span. -/
def should_replace (escape_info : Option EscapeInfo) (s : Nat) : Bool :=
  match escape_info with
  | Option.none => true
  | Option.some ei =>
    match ei.escape_type with
    | EscapeType.full => false
    | EscapeType.percent => ei.variable_positions.any (fun p => p.1 ≤ s && s < p.2)
    | EscapeType.none => true

/-- `MarkdownFlowVariableResolver.resolve_variables`: find the
substitutable-variable matches, then rewrite them in reverse order at
their frozen offsets. -/
def MarkdownFlowVariableResolver.resolve_variables (text : String)
    (vars : List (String × Option String)) (escape_info : Option EscapeInfo) : String :=
  let ms := findVarMatches Option.none 0 0 text.data
  let out := ms.reverse.foldl
    (fun txt m =>
      if should_replace escape_info m.1 then
        txt.take m.1 ++ (safeValue vars ⟨pyStrip m.2.2⟩).data ++ txt.drop m.2.1
      else txt)
    text.data
  ⟨out⟩

/-- `MarkdownFlowUnifiedParser.parse_document`: blocks plus the aggregated,
sorted variable-name set. -/
def MarkdownFlowUnifiedParser.parse_document (document : String) :
    List Block × List String :=
  let blocks := MarkdownFlowBlockParser.parse_document document
  let allVars := blocks.foldl
    (fun acc b =>
      match b.block_type with
      | BlockType.content =>
        acc ++ (MarkdownFlowInlineParser.parse_content_block b.content).vars
      | BlockType.interaction =>
        let r := MarkdownFlowInlineParser.parse_interaction_block b.content
        let acc1 :=
          match r.result with
          | InteractionResult.buttonsWithText v _ _ => acc ++ [v]
          | InteractionResult.textOnly v _ => acc ++ [v]
          | InteractionResult.buttonsOnly v _ => acc ++ [v]
          | _ => acc
        match r.result with
        | InteractionResult.buttonsWithText _ _ q =>
          acc1 ++ MarkdownFlowInlineParser.extract_variables q Option.none
        | InteractionResult.textOnly _ q =>
          acc1 ++ MarkdownFlowInlineParser.extract_variables q Option.none
        | _ => acc1
      | BlockType.preserved_content =>
        acc ++ (MarkdownFlowInlineParser.parse_preserved_content_block b.content).vars)
    []
  (blocks, sortedDedup allVars)

/-- `MarkdownFlowUnifiedParser.process_block_content`. -/
def MarkdownFlowUnifiedParser.process_block_content (block : Block)
    (vars : List (String × Option String)) : String :=
  match block.block_type with
  | BlockType.content =>
    let r := MarkdownFlowInlineParser.parse_content_block block.content
    MarkdownFlowVariableResolver.resolve_variables r.processed_content vars
      (some r.escape_info)
  | BlockType.preserved_content =>
    let r := MarkdownFlowInlineParser.parse_preserved_content_block block.content
    MarkdownFlowVariableResolver.resolve_variables r.processed_content vars
      (some r.escape_info)
  | BlockType.interaction => block.content

example :
    MarkdownFlowInlineParser.parse_buttons "A//1|B|  |C//2//x" =
      [⟨"A", "1"⟩, ⟨"B", "B"⟩, ⟨"C", "2//x"⟩] := by
  decide

example :
    (MarkdownFlowInlineParser.parse_interaction_block "?[%\x7b\x7bchoice\x7d\x7dYes|No]").result =
      InteractionResult.buttonsOnly "choice" [⟨"Yes", "Yes"⟩, ⟨"No", "No"⟩] := by
  decide

example :
    MarkdownFlowInlineParser.extract_variables "\x7b\x7bb\x7d\x7d \x7b\x7ba\x7d\x7d \x7b\x7ba\x7d\x7d"
      Option.none = ["a", "b"] := by
  decide

example :
    MarkdownFlowVariableResolver.resolve_variables "\x7b\x7bmissing\x7d\x7d" [] Option.none =
      "UNKNOWN" := by
  decide

example :
    MarkdownFlowUnifiedParser.parse_document
        "Hello \x7b\x7bname\x7d\x7d\n---\n?[%\x7b\x7bchoice\x7d\x7dYes|No]" =
      ([⟨"Hello \x7b\x7bname\x7d\x7d", BlockType.content, 0⟩,
        ⟨"?[%\x7b\x7bchoice\x7d\x7dYes|No]", BlockType.interaction, 1⟩],
       ["choice", "name"]) := by
  decide

example :
    MarkdownFlowUnifiedParser.process_block_content
        ⟨"\\\x7b\x7bx\x7d\x7d", BlockType.content, 0⟩ [("x", some "v")] =
      "\x7b\x7bx\x7d\x7d" := by
  decide

example :
    MarkdownFlowUnifiedParser.process_block_content
        ⟨"\\%\x7b\x7bx\x7d\x7d", BlockType.content, 0⟩ [("x", some "v")] =
      "%\x7b\x7bx\x7d\x7d" := by
  decide

example :
    MarkdownFlowEscapeProcessor.process_inline_escapes
        "\\%\x7b\x7ba\x7d\x7d\\%\x7b\x7bb\x7d\x7d" =
      ⟨EscapeType.percent, "\\%\x7b\x7ba\x7d\x7d\\%\x7b\x7bb\x7d\x7d",
       "%\x7b\x7ba\x7d\x7d%\x7b\x7bb\x7d\x7d", [(8, 13), (1, 6)]⟩ := by
  decide

theorem mk_data_eq (s : String) : String.mk s.data = s := rfl

theorem splitChar_ne_nil (sep : Char) (l : List Char) : splitChar sep l ≠ [] := by
  induction l with
  | nil => simp [splitChar]
  | cons c rest ih =>
    simp only [splitChar]
    split
    · simp
    · split
      · simp
      · simp

theorem trimRight_cons_shape (c : Char) (l : List Char) :
    trimRight (c :: l) = [] ∨ ∃ r, trimRight (c :: l) = c :: r := by
  simp only [trimRight]
  cases h : trimRight l with
  | nil =>
    by_cases hc : isPySpace c = true
    · left; simp [hc]
    · right; exact ⟨[], by simp [hc]⟩
  | cons x xs => right; exact ⟨x :: xs, rfl⟩

theorem trimRight_cons_of_not_space (c : Char) (l : List Char) (hc : isPySpace c = false) :
    ∃ r, trimRight (c :: l) = c :: r := by
  rcases trimRight_cons_shape c l with h | h
  · refine ⟨[], ?_⟩
    simp only [trimRight] at h ⊢
    cases h' : trimRight l with
    | nil => simp [hc]
    | cons x xs => rw [h'] at h; exact absurd h (by simp)
  · exact h

theorem pyStrip_cons_of_not_space (c : Char) (l : List Char) (hc : isPySpace c = false) :
    ∃ r, pyStrip (c :: l) = c :: r := by
  unfold pyStrip
  rw [List.dropWhile_cons, hc]
  simp only [Bool.false_eq_true, if_false]
  exact trimRight_cons_of_not_space c l hc

theorem trimRight_cons_eq (c : Char) (l : List Char) :
    trimRight (c :: l) =
      match trimRight l with
      | [] => if isPySpace c then [] else [c]
      | r => c :: r := rfl

theorem trimRight_idem (l : List Char) : trimRight (trimRight l) = trimRight l := by
  induction l with
  | nil => rfl
  | cons c rest ih =>
    cases h : trimRight rest with
    | nil =>
      have h1 : trimRight (c :: rest) = if isPySpace c then [] else [c] := by
        rw [trimRight_cons_eq, h]
      by_cases hc : isPySpace c = true
      · rw [h1, if_pos hc]; rfl
      · rw [h1, if_neg hc]
        simp [trimRight, hc]
    | cons x xs =>
      rw [h] at ih
      have h1 : trimRight (c :: rest) = c :: x :: xs := by rw [trimRight_cons_eq, h]
      rw [h1, trimRight_cons_eq, ih]

theorem dropWhile_head_false {p : Char → Bool} {l : List Char} {c : Char} {t : List Char}
    (h : l.dropWhile p = c :: t) : p c = false := by
  induction l with
  | nil => simp at h
  | cons a rest ih =>
    rw [List.dropWhile_cons] at h
    by_cases ha : p a = true
    · rw [if_pos ha] at h; exact ih h
    · rw [if_neg ha] at h
      cases h
      simpa using ha

theorem pyStrip_idem (l : List Char) : pyStrip (pyStrip l) = pyStrip l := by
  unfold pyStrip
  have hdrop : (trimRight (l.dropWhile isPySpace)).dropWhile isPySpace =
      trimRight (l.dropWhile isPySpace) := by
    cases hm : l.dropWhile isPySpace with
    | nil => simp [trimRight]
    | cons c t =>
      have hc : isPySpace c = false := dropWhile_head_false hm
      rcases trimRight_cons_shape c t with h | ⟨r, h⟩
      · rw [h]; rfl
      · rw [h, List.dropWhile_cons, hc]; simp
  rw [hdrop, trimRight_idem]

theorem pyStripS_idem (s : String) : pyStripS (pyStripS s) = pyStripS s :=
  congrArg String.mk (pyStrip_idem s.data)

theorem scanReplaceAux_no_backslash (m : EscMatcher)
    (hm : ∀ c r, c ≠ '\\' → m c r = none) :
    ∀ l : List Char, '\\' ∉ l → scanReplaceAux m 0 l = (l, false) := by
  intro l
  induction l with
  | nil => intro _; rfl
  | cons c rest ih =>
    intro h
    have hc : c ≠ '\\' := fun hc => h (hc ▸ List.mem_cons_self c rest)
    have hrest : '\\' ∉ rest := fun hr => h (List.mem_cons_of_mem c hr)
    simp only [scanReplaceAux, hm c rest hc, ih hrest]

theorem findPercentMatches_no_backslash :
    ∀ (l : List Char) (i : Nat), '\\' ∉ l → findPercentMatches i 0 l = [] := by
  intro l
  induction l with
  | nil => intro i _; rfl
  | cons c rest ih =>
    intro i h
    have hc : c ≠ '\\' := fun hc => h (hc ▸ List.mem_cons_self c rest)
    have hrest : '\\' ∉ rest := fun hr => h (List.mem_cons_of_mem c hr)
    simp only [findPercentMatches, percentMatchAt, hc, if_false, ih (i + 1) hrest]

/-- Claim C9: an input without any backslash is returned unchanged by both
escape-processing entry points, with escape type `None` and no recorded
variable positions. -/
theorem no_backslash_escape_identity (text : String) (h : '\\' ∉ text.data) :
    MarkdownFlowEscapeProcessor.process_document_escapes text =
      ⟨EscapeType.none, text, text, []⟩ ∧
    MarkdownFlowEscapeProcessor.process_inline_escapes text =
      ⟨EscapeType.none, text, text, []⟩ := by
  have hall : ∀ m : EscMatcher, (∀ c r, c ≠ '\\' → m c r = none) →
      scanReplace m text.data = (text.data, false) :=
    fun m hm => scanReplaceAux_no_backslash m hm text.data h
  have h1 := hall dashMatcher (by intro c r hc; simp [dashMatcher, hc])
  have h2 := hall eqMatcher (by intro c r hc; simp [eqMatcher, hc])
  have h3 := hall qbracketMatcher (by intro c r hc; simp [qbracketMatcher, hc])
  have h4 := hall ellipsisMatcher (by intro c r hc; simp [ellipsisMatcher, hc])
  have h5 := hall pipeMatcher (by intro c r hc; simp [pipeMatcher, hc])
  have h6 := hall slashMatcher (by intro c r hc; simp [slashMatcher, hc])
  have h7 := hall braceEscMatcher (by intro c r hc; simp [braceEscMatcher, hc])
  have hp := findPercentMatches_no_backslash text.data 0 h
  constructor
  · simp [MarkdownFlowEscapeProcessor.process_document_escapes, processEscapesCore,
      applyPercent, h1, h2, h3, mk_data_eq]
  · simp [MarkdownFlowEscapeProcessor.process_inline_escapes, processEscapesCore,
      applyPercent, hp, h4, h5, h6, h7, mk_data_eq]

/-- Witness for C9 at a concrete backslash-free input. -/
theorem no_backslash_escape_identity_witness :
    MarkdownFlowEscapeProcessor.process_document_escapes "Hello \x7b\x7bname\x7d\x7d" =
      ⟨EscapeType.none, "Hello \x7b\x7bname\x7d\x7d", "Hello \x7b\x7bname\x7d\x7d", []⟩ ∧
    MarkdownFlowEscapeProcessor.process_inline_escapes "Hello \x7b\x7bname\x7d\x7d" =
      ⟨EscapeType.none, "Hello \x7b\x7bname\x7d\x7d", "Hello \x7b\x7bname\x7d\x7d", []⟩ :=
  no_backslash_escape_identity "Hello \x7b\x7bname\x7d\x7d" (by decide)

/-- Claim C1 (refuted by the code): the document-level escape pass rewrites
the escaped separator `\---` to a literal `---` line BEFORE the split, and
the split pattern carries no lookbehind, so `parse_document` does split at
that line: `"a\n\\---\nb"` yields two blocks instead of one. -/
theorem parse_document_splits_on_escaped_separator :
    MarkdownFlowBlockParser.parse_document "a\n\\---\nb" =
      [⟨"a", BlockType.content, 0⟩, ⟨"b", BlockType.content, 1⟩] := by
  decide

/-- Claim C2 (refuted in its second half): a fully escaped `\{{x}}` is
indeed never substituted, but a partially escaped `\%{{x}}` is NOT
substituted either — the resolver's variable pattern excludes occurrences
preceded by `%`, so the block resolves to `%{{x}}`, not `%v`. -/
theorem percent_escape_variable_not_substituted :
    MarkdownFlowUnifiedParser.process_block_content
        ⟨"\\\x7b\x7bx\x7d\x7d", BlockType.content, 0⟩ [("x", some "v")] =
      "\x7b\x7bx\x7d\x7d" ∧
    MarkdownFlowUnifiedParser.process_block_content
        ⟨"\\%\x7b\x7bx\x7d\x7d", BlockType.content, 0⟩ [("x", some "v")] =
      "%\x7b\x7bx\x7d\x7d" ∧
    "%\x7b\x7bx\x7d\x7d" ≠ "%v" := by
  decide

/-- Claim C3 (refuted by the code): with two partial escapes
`\%{{a}}\%{{b}}` the recorded spans are `[(8,13),(1,6)]` while the
processed text `%{{a}}%{{b}}` has length 12, so the recorded span of the
second variable is not even inside the processed text (the true span of
`{{b}}` is `(7,12)`). -/
theorem percent_positions_stale_after_two_escapes :
    (MarkdownFlowEscapeProcessor.process_inline_escapes
        "\\%\x7b\x7ba\x7d\x7d\\%\x7b\x7bb\x7d\x7d").processed_text =
      "%\x7b\x7ba\x7d\x7d%\x7b\x7bb\x7d\x7d" ∧
    (MarkdownFlowEscapeProcessor.process_inline_escapes
        "\\%\x7b\x7ba\x7d\x7d\\%\x7b\x7bb\x7d\x7d").variable_positions = [(8, 13), (1, 6)] ∧
    (MarkdownFlowEscapeProcessor.process_inline_escapes
        "\\%\x7b\x7ba\x7d\x7d\\%\x7b\x7bb\x7d\x7d").processed_text.data.length = 12 := by
  decide

/-- Claim C4: the end-to-end scenario
`"Hello {{name}}\n---\n?[%{{choice}}Yes|No]"` parses into a content block
and an interaction block, with block variables `["name"]`, descriptor
`buttonsOnly "choice" [Yes/Yes, No/No]`, and aggregate variable set
`["choice", "name"]`. -/
theorem unified_parse_end_to_end :
    MarkdownFlowUnifiedParser.parse_document
        "Hello \x7b\x7bname\x7d\x7d\n---\n?[%\x7b\x7bchoice\x7d\x7dYes|No]" =
      ([⟨"Hello \x7b\x7bname\x7d\x7d", BlockType.content, 0⟩,
        ⟨"?[%\x7b\x7bchoice\x7d\x7dYes|No]", BlockType.interaction, 1⟩],
       ["choice", "name"]) ∧
    (MarkdownFlowInlineParser.parse_content_block "Hello \x7b\x7bname\x7d\x7d").vars =
      ["name"] ∧
    (MarkdownFlowInlineParser.parse_interaction_block
        "?[%\x7b\x7bchoice\x7d\x7dYes|No]").result =
      InteractionResult.buttonsOnly "choice" [⟨"Yes", "Yes"⟩, ⟨"No", "No"⟩] := by
  decide

/-- Claim C7: `parse_buttons` splits on `|`, drops blank segments, and
splits each surviving segment on the first `//` only, trimming both
halves. -/
theorem parse_buttons_first_slash_split :
    MarkdownFlowInlineParser.parse_buttons "A//1|B|  |C//2//x" =
      [⟨"A", "1"⟩, ⟨"B", "B"⟩, ⟨"C", "2//x"⟩] := by
  decide

/-- Claim C10: when the content does not both start with `?[` and end with
`]`, `parse_interaction_block` strips nothing and feeds the whole input
through inline escaping into the interaction grammar. -/
theorem parse_interaction_unbracketed_passthrough (content : String)
    (h : (startsWithS content "?[" && endsWithS content "]") = false) :
    MarkdownFlowInlineParser.parse_interaction_block content =
      ⟨MarkdownFlowInlineParser.parse_interaction_content
          (MarkdownFlowEscapeProcessor.process_inline_escapes content).processed_text,
        MarkdownFlowEscapeProcessor.process_inline_escapes content, content⟩ := by
  simp [MarkdownFlowInlineParser.parse_interaction_block, h]

/-- Witness for C10 at a concrete unbracketed input. -/
theorem parse_interaction_unbracketed_passthrough_witness :
    MarkdownFlowInlineParser.parse_interaction_block "pick: A|B" =
      ⟨MarkdownFlowInlineParser.parse_interaction_content
          (MarkdownFlowEscapeProcessor.process_inline_escapes "pick: A|B").processed_text,
        MarkdownFlowEscapeProcessor.process_inline_escapes "pick: A|B", "pick: A|B"⟩ :=
  parse_interaction_unbracketed_passthrough "pick: A|B" (by decide)

theorem take3_head_eq {m : List Char} (hm : m.take 3 = ['=', '=', '=']) :
    ∃ t, m = '=' :: t := by
  cases m with
  | nil => simp at hm
  | cons a t =>
    rw [List.take_succ_cons] at hm
    exact ⟨t, by rw [(List.cons.injEq _ _ _ _).mp hm |>.1]⟩

theorem inlinePreservedMatch_none_of_head (c : Char) (r : List Char) (hne : c ≠ '=') :
    inlinePreservedMatch (c :: r) = none := by
  have hcand : (if (c :: r).getLast? = some '\n' then (c :: r).dropLast else (c :: r)) = [] ∨
      ∃ t, (if (c :: r).getLast? = some '\n' then (c :: r).dropLast else (c :: r)) = c :: t := by
    by_cases hl : (c :: r).getLast? = some '\n'
    · rw [if_pos hl]
      cases r with
      | nil => left; rfl
      | cons x xs => right; exact ⟨(x :: xs).dropLast, rfl⟩
    · rw [if_neg hl]; right; exact ⟨r, rfl⟩
  simp only [inlinePreservedMatch]
  rcases hcand with h | ⟨t, h⟩ <;> rw [h]
  · rw [if_neg]
    rintro ⟨h1, -⟩
    simp at h1
  · rw [if_neg]
    rintro ⟨h1, -⟩
    obtain ⟨t', ht'⟩ := take3_head_eq h1
    exact hne ((List.cons.injEq _ _ _ _).mp ht' |>.1)

theorem is_preserved_false_of_head (c : Char) (l : List Char)
    (hws : isPySpace c = false) (hne : c ≠ '=') :
    MarkdownFlowBlockParser.is_preserved_content_block ⟨c :: l⟩ = false := by
  have hnl : c ≠ '\n' := by
    intro h
    rw [h] at hws
    simp [isPySpace] at hws
  obtain ⟨h0, t0, hsplit⟩ : ∃ h0 t0, splitChar '\n' (c :: l) = (c :: h0) :: t0 := by
    have heq : splitChar '\n' (c :: l) =
        match splitChar '\n' l with
        | [] => [[c]]
        | h :: t => (c :: h) :: t := by
      simp [splitChar, hnl]
    cases hsl : splitChar '\n' l with
    | nil => exact absurd hsl (splitChar_ne_nil '\n' l)
    | cons h t =>
      rw [hsl] at heq
      exact ⟨h, t, heq⟩
  obtain ⟨r, hstrip⟩ := pyStrip_cons_of_not_space c h0 hws
  simp only [MarkdownFlowBlockParser.is_preserved_content_block, hsplit]
  have hhead : ((c :: h0) :: t0).headD ([] : List Char) = c :: h0 := rfl
  rw [hhead, hstrip]
  have hinline := inlinePreservedMatch_none_of_head c r hne
  have hmulti : (c :: r = ['=', '=', '=']) = False := by
    simp only [eq_iff_iff, iff_false]
    intro hcontra
    exact hne ((List.cons.injEq _ _ _ _).mp hcontra |>.1)
  simp [hinline, hmulti]
  intro _ hc
  exact absurd hc hne

/-- Claim C6: interaction classification takes priority for every trimmed
segment that starts with `?[`, ends with `]` and has balanced brackets;
with unbalanced brackets the same shape falls through to plain content
(never to preserved content, whose markers cannot start with `?`). -/
theorem block_classification_priority (s : String) (i : Nat)
    (hs : pyStripS s = s) (h1 : startsWithS s "?[" = true) (h2 : endsWithS s "]" = true) :
    (bracketBalance s = 0 →
      MarkdownFlowBlockParser.parse_single_block s i = some ⟨s, BlockType.interaction, i⟩) ∧
    (bracketBalance s ≠ 0 →
      MarkdownFlowBlockParser.parse_single_block s i = some ⟨s, BlockType.content, i⟩) := by
  obtain ⟨t, ht⟩ : ∃ t, s.data = '?' :: '[' :: t := by
    have hp : ['?', '['] <+: s.data := by
      have := (List.isPrefixOf_iff_prefix).mp h1
      exact this
    obtain ⟨t, ht⟩ := hp
    exact ⟨t, ht.symm⟩
  have hne : s ≠ "" := by
    intro h
    rw [h] at ht
    exact absurd ht (by simp [String.data])
  constructor
  · intro hb
    have hi : MarkdownFlowBlockParser.is_interaction_block s = true := by
      simp [MarkdownFlowBlockParser.is_interaction_block, hs, h1, h2, hb]
    simp [MarkdownFlowBlockParser.parse_single_block, hs, hne, classifyBlock, hi]
  · intro hb
    have hi : MarkdownFlowBlockParser.is_interaction_block s = false := by
      simp [MarkdownFlowBlockParser.is_interaction_block, hs, h1, h2, hb]
    have hsd : s = (⟨'?' :: '[' :: t⟩ : String) := by
      rw [← ht, mk_data_eq]
    have hp : MarkdownFlowBlockParser.is_preserved_content_block s = false := by
      rw [hsd]
      exact is_preserved_false_of_head '?' ('[' :: t) (by decide) (by decide)
    simp [MarkdownFlowBlockParser.parse_single_block, hs, hne, classifyBlock, hi, hp]

/-- Witness for C6: `?[a]` is balanced and classifies as interaction;
`?[a]]` is unbalanced and classifies as content. -/
theorem block_classification_priority_witness :
    MarkdownFlowBlockParser.parse_single_block "?[a]" 0 =
      some ⟨"?[a]", BlockType.interaction, 0⟩ ∧
    MarkdownFlowBlockParser.parse_single_block "?[a]]" 0 =
      some ⟨"?[a]]", BlockType.content, 0⟩ :=
  ⟨(block_classification_priority "?[a]" 0 (by decide) (by decide) (by decide)).1 (by decide),
   (block_classification_priority "?[a]]" 0 (by decide) (by decide) (by decide)).2 (by decide)⟩

theorem reindexBlocks_map_index (n : Nat) (bs : List Block) :
    (reindexBlocks n bs).map Block.index = List.range' n bs.length := by
  induction bs generalizing n with
  | nil => rfl
  | cons b rest ih => simp [reindexBlocks, List.range', ih]

theorem reindexBlocks_length (n : Nat) (bs : List Block) :
    (reindexBlocks n bs).length = bs.length := by
  induction bs generalizing n with
  | nil => rfl
  | cons b rest ih => simp [reindexBlocks, ih]

theorem mem_reindexBlocks {b : Block} :
    ∀ (n : Nat) (bs : List Block), b ∈ reindexBlocks n bs →
      ∃ b' ∈ bs, b.content = b'.content := by
  intro n bs
  induction bs generalizing n with
  | nil => intro h; simp [reindexBlocks] at h
  | cons x rest ih =>
    intro h
    rcases List.mem_cons.mp h with h | h
    · exact ⟨x, List.mem_cons_self x rest, by rw [h]⟩
    · obtain ⟨b', hb', hc⟩ := ih (n + 1) h
      exact ⟨b', List.mem_cons_of_mem x hb', hc⟩

theorem parse_single_block_of_stripped (s : String) (i : Nat)
    (hs : pyStripS s = s) (hne : s ≠ "") :
    MarkdownFlowBlockParser.parse_single_block s i = some ⟨s, classifyBlock s, i⟩ := by
  simp [MarkdownFlowBlockParser.parse_single_block, hs, hne]

theorem mem_collectBlocks {b : Block} :
    ∀ (segs : List (List Char)) (i : Nat), b ∈ collectBlocks i segs →
      b.content ≠ "" ∧ pyStripS b.content = b.content := by
  intro segs
  induction segs with
  | nil => intro i h; simp [collectBlocks] at h
  | cons seg rest ih =>
    intro i h
    by_cases hseg : (pyStrip seg).isEmpty = true
    · rw [collectBlocks, if_pos hseg] at h
      exact ih (i + 1) h
    · rw [collectBlocks, if_neg hseg] at h
      have hnil : pyStrip seg ≠ [] := by
        intro hcontra
        rw [hcontra] at hseg
        exact hseg rfl
      have hids : pyStripS (⟨pyStrip seg⟩ : String) = ⟨pyStrip seg⟩ :=
        congrArg String.mk (pyStrip_idem seg)
      have hnee : (⟨pyStrip seg⟩ : String) ≠ "" := by
        intro hcontra
        exact hnil (congrArg String.data hcontra)
      rw [parse_single_block_of_stripped ⟨pyStrip seg⟩ i hids hnee] at h
      rcases List.mem_cons.mp h with h | h
      · rw [h]
        exact ⟨hnee, hids⟩
      · exact ih (i + 1) h

/-- Claim C5: for every document the returned blocks carry the index
sequence `0 .. len-1` in order, and every block's content is nonempty and
already trimmed, so blank or whitespace-only segments never produce a
block. -/
theorem parse_document_index_contiguous (doc : String) :
    (MarkdownFlowBlockParser.parse_document doc).map Block.index =
      List.range (MarkdownFlowBlockParser.parse_document doc).length ∧
    ∀ b ∈ MarkdownFlowBlockParser.parse_document doc,
      b.content ≠ "" ∧ pyStripS b.content = b.content := by
  constructor
  · show (reindexBlocks 0 _).map Block.index = List.range (reindexBlocks 0 _).length
    rw [reindexBlocks_map_index, reindexBlocks_length, List.range_eq_range']
  · intro b hb
    obtain ⟨b', hb', hc⟩ := mem_reindexBlocks 0 _ hb
    have := mem_collectBlocks _ 0 hb'
    rw [hc]
    exact this

/-- Witness for C5 at a concrete two-block document. -/
theorem parse_document_index_contiguous_witness :
    (MarkdownFlowBlockParser.parse_document "a\n---\nb").map Block.index =
      List.range (MarkdownFlowBlockParser.parse_document "a\n---\nb").length ∧
    ((⟨"a", BlockType.content, 0⟩ : Block).content ≠ "" ∧
      pyStripS (⟨"a", BlockType.content, 0⟩ : Block).content =
        (⟨"a", BlockType.content, 0⟩ : Block).content) :=
  ⟨(parse_document_index_contiguous "a\n---\nb").1,
   (parse_document_index_contiguous "a\n---\nb").2 ⟨"a", BlockType.content, 0⟩ (by decide)⟩

theorem takeWhile_append_of_all (p : Char → Bool) (l1 l2 : List Char)
    (h : ∀ x ∈ l1, p x = true) :
    (l1 ++ l2).takeWhile p = l1 ++ l2.takeWhile p := by
  induction l1 with
  | nil => simp
  | cons a l ih =>
    rw [List.cons_append, List.takeWhile_cons, h a (List.mem_cons_self a l),
      ih (fun x hx => h x (List.mem_cons_of_mem a hx))]
    simp

theorem bracesMatch_full (nd : List Char) (h1 : nd ≠ [])
    (h2 : ∀ c ∈ nd, c ≠ '\x7d') :
    bracesMatch ('\x7b' :: '\x7b' :: (nd ++ ['\x7d', '\x7d'])) =
      some (nd, nd.length + 4) := by
  have htake : (nd ++ ['\x7d', '\x7d']).takeWhile (fun ch => ch ≠ '\x7d') = nd := by
    rw [takeWhile_append_of_all _ nd ['\x7d', '\x7d']
      (fun x hx => by simpa using h2 x hx)]
    simp [List.takeWhile_cons]
  have hdrop : (nd ++ ['\x7d', '\x7d']).drop nd.length = ['\x7d', '\x7d'] :=
    List.drop_left nd ['\x7d', '\x7d']
  simp only [bracesMatch, htake]
  rw [if_neg (by simpa using h1)]
  rw [hdrop]
  rfl

theorem findVarMatches_skip_all :
    ∀ (l : List Char) (prev : Option Char) (i skip : Nat), l.length ≤ skip →
      findVarMatches prev i skip l = [] := by
  intro l
  induction l with
  | nil => intro prev i skip _; cases skip <;> rfl
  | cons c rest ih =>
    intro prev i skip hle
    cases skip with
    | zero => simp at hle
    | succ s =>
      rw [findVarMatches]
      exact ih prev i s (by simpa using hle)

theorem findVarMatches_single (nd : List Char) (h1 : nd ≠ [])
    (h2 : ∀ c ∈ nd, c ≠ '\x7d') :
    findVarMatches Option.none 0 0 ('\x7b' :: '\x7b' :: (nd ++ ['\x7d', '\x7d'])) =
      [(0, nd.length + 4, nd)] := by
  have hb := bracesMatch_full nd h1 h2
  rw [findVarMatches]
  have hpr : (Option.none = some '%') = False := by simp
  simp only [hpr, if_false, reduceCtorEq, reduceIte, hb]
  have hrest : ('\x7b' :: (nd ++ ['\x7d', '\x7d'])).length ≤ nd.length + 4 - 1 := by
    simp [List.length_append]
  rw [findVarMatches_skip_all _ _ _ _ hrest]
  simp

/-- Claim C8: wherever the escape context lets an occurrence be replaced,
resolution substitutes the mapped value for a present, non-null, non-empty
binding and the literal `UNKNOWN` for an absent, null or empty one; the
resolver is a total function. -/
theorem resolve_variables_fallback (n : String) (vars : List (String × Option String))
    (ei : Option EscapeInfo) (h1 : n.data ≠ []) (h2 : ∀ c ∈ n.data, c ≠ '\x7d')
    (h3 : should_replace ei 0 = true) :
    (∀ v : String, lookupVar vars (pyStripS n) = some (some v) → v ≠ "" →
      MarkdownFlowVariableResolver.resolve_variables
        ⟨'\x7b' :: '\x7b' :: (n.data ++ ['\x7d', '\x7d'])⟩ vars ei = v) ∧
    ((lookupVar vars (pyStripS n) = none ∨ lookupVar vars (pyStripS n) = some none ∨
        lookupVar vars (pyStripS n) = some (some "")) →
      MarkdownFlowVariableResolver.resolve_variables
        ⟨'\x7b' :: '\x7b' :: (n.data ++ ['\x7d', '\x7d'])⟩ vars ei = "UNKNOWN") := by
  have hlen : ('\x7b' :: '\x7b' :: (n.data ++ ['\x7d', '\x7d'])).length = n.data.length + 4 := by
    simp [List.length_append]
  have key : MarkdownFlowVariableResolver.resolve_variables
      ⟨'\x7b' :: '\x7b' :: (n.data ++ ['\x7d', '\x7d'])⟩ vars ei =
      safeValue vars (pyStripS n) := by
    unfold MarkdownFlowVariableResolver.resolve_variables
    rw [show (⟨'\x7b' :: '\x7b' :: (n.data ++ ['\x7d', '\x7d'])⟩ : String).data =
        '\x7b' :: '\x7b' :: (n.data ++ ['\x7d', '\x7d']) from rfl]
    rw [findVarMatches_single n.data h1 h2]
    simp only [List.reverse_cons, List.reverse_nil, List.nil_append, List.foldl_cons,
      List.foldl_nil, h3, if_true]
    rw [List.take_zero, List.nil_append, ← hlen, List.drop_length, List.append_nil]
    have : pyStripS n = (⟨pyStrip n.data⟩ : String) := rfl
    rw [← this, mk_data_eq]
  constructor
  · intro v hv hne
    rw [key]
    simp [safeValue, hv, hne]
  · intro hcase
    rw [key]
    rcases hcase with h | h | h <;> simp [safeValue, h]

/-- Witness for C8 at name `x` bound to `v`. -/
theorem resolve_variables_fallback_witness :
    MarkdownFlowVariableResolver.resolve_variables
      ⟨'\x7b' :: '\x7b' :: ("x".data ++ ['\x7d', '\x7d'])⟩ [("x", some "v")] Option.none =
      "v" :=
  (resolve_variables_fallback "x" [("x", some "v")] Option.none (by decide) (by decide)
    rfl).1 "v" (by decide) (by decide)
